import Mathlib

/-
Verification development for the DataPlug repository: a stream-directory
front-end with click-counter routes, client-side search filtering, an
admin allow-list gate, a connectivity probe route, and stream-creation
normalization. Each definition below is a shallow embedding of one piece
of the TypeScript source; the external store (Supabase) is modelled as an
explicit list of rows plus explicit outcome parameters for the few store
behaviours the code branches on (errors, row-level-security filtering).
JavaScript numbers holding counters are modelled as Nat (the counters are
non-negative and only ever incremented by one); nullable fields are
modelled as Option.
-/

namespace DataPlug

/-- A persisted stream record, after src/src/app/HomeClient.tsx
(interface Stream): `tags`, `clicks_node`, `clicks_python` are nullable
in the database, hence Option. -/
structure Stream where
  id : String
  name : String
  description : String
  endpoint : String
  tags : Option (List String)
  clicks_node : Option Nat
  clicks_python : Option Nat
  created_at : String
deriving DecidableEq

/-- JavaScript truthiness of a possibly-absent string request field:
`undefined`/`null` and the empty string are falsy. -/
def jsTruthy : Option String → Bool
  | none => false
  | some s => !(s == "")

/-- The embedding of String.prototype.trim: drop whitespace characters
from both ends (stated over the character list so it evaluates by
computation). -/
def jsTrim (s : String) : String :=
  ⟨((s.data.dropWhile Char.isWhitespace).reverse.dropWhile Char.isWhitespace).reverse⟩

/-- The embedding of String.prototype.toLowerCase (ASCII case folding,
as the catalog data is ASCII). -/
def jsToLower (s : String) : String :=
  ⟨s.data.map Char.toLower⟩

/-- The accumulator of the comma split: current segment (reversed) and
the remaining characters. -/
def splitCommaAux : List Char → List Char → List String
  | acc, [] => [⟨acc.reverse⟩]
  | acc, c :: cs =>
    if c == ',' then ⟨acc.reverse⟩ :: splitCommaAux [] cs
    else splitCommaAux (c :: acc) cs

/-- The embedding of String.prototype.split with separator comma: the
empty string yields one empty segment, separators at the ends yield
empty segments, matching the JavaScript semantics. -/
def jsSplitComma (s : String) : List String :=
  splitCommaAux [] s.data

/-- The store read `.select(...).eq(id, i).single()`: Supabase `.single()`
yields a row only when the filter matches exactly one row, and errors
otherwise (0 rows or more than 1). -/
def selectSingle (db : List Stream) (i : String) : Option Stream :=
  match db.filter (fun s => s.id == i) with
  | [s] => some s
  | _ => none

/-- The store write `.update(clicks_node := n).eq(id, i)`: every row whose
id equals the filter value gets the new counter value. -/
def updateClicksNode (db : List Stream) (i : String) (n : Nat) : List Stream :=
  db.map (fun s => if s.id == i then { s with clicks_node := some n } else s)

/-- The store write `.update(clicks_python := n).eq(id, i)`. -/
def updateClicksPython (db : List Stream) (i : String) (n : Nat) : List Stream :=
  db.map (fun s => if s.id == i then { s with clicks_python := some n } else s)

/-- Outcome of a click route call: HTTP status, the success flag of the
JSON body, and the store contents after the call. -/
structure ClickOut where
  status : Nat
  success : Bool
  db : List Stream
deriving DecidableEq

/-- POST of src/src/app/api/click/route.ts (the primary variant):
validate the `id`/`type` body fields, fetch the current counters with
`.eq(id).single()` (a fetch error and a missing row both end in 404),
then branch on the type string and write back `current + 1` with an
equality filter on id. Environment credentials are assumed configured
(the 500 configuration branch is not modelled), and the store update is
assumed not to error in this variant. -/
def clickPOST (db : List Stream) (idv tyv : Option String) : ClickOut :=
  if !(jsTruthy idv && jsTruthy tyv) then ⟨400, false, db⟩
  else
    let i := idv.getD ""
    let ty := tyv.getD ""
    match selectSingle db i with
    | none => ⟨404, false, db⟩
    | some s =>
      if ty == "node" then
        ⟨200, true, updateClicksNode db i (s.clicks_node.getD 0 + 1)⟩
      else if ty == "python" then
        ⟨200, true, updateClicksPython db i (s.clicks_python.getD 0 + 1)⟩
      else ⟨400, false, db⟩

/-- POST of the hardened click route variant (src/unnamed/part_001).
Extra store-behaviour parameters: `updErr` is the update call erroring
with a message; `applied` says whether the store actually applied the
update (row-level security can silently reject it); `visible` says
whether the updated row appears in the update call's return set. When
the return set is empty the route re-reads the counter and compares it
to the expected new value; a mismatch is reported as 403, an update
error as 500. The verification re-read itself is modelled as succeeding
(reads are not policy-filtered in this model). -/
def clickPOST2 (db : List Stream) (idv tyv : Option String)
    (updErr : Option String) (applied visible : Bool) : ClickOut :=
  if !(jsTruthy idv && jsTruthy tyv) then ⟨400, false, db⟩
  else
    let i := idv.getD ""
    let ty := tyv.getD ""
    match selectSingle db i with
    | none => ⟨404, false, db⟩
    | some s =>
      if ty == "node" then
        let n := s.clicks_node.getD 0 + 1
        if updErr.isSome then ⟨500, false, db⟩
        else
          let db2 := if applied then updateClicksNode db i n else db
          let ret := if applied && visible then db2.filter (fun x => x.id == i) else []
          if ret.isEmpty then
            match selectSingle db2 i with
            | some v => if v.clicks_node == some n then ⟨200, true, db2⟩ else ⟨403, false, db2⟩
            | none => ⟨403, false, db2⟩
          else ⟨200, true, db2⟩
      else if ty == "python" then
        let n := s.clicks_python.getD 0 + 1
        if updErr.isSome then ⟨500, false, db⟩
        else
          let db2 := if applied then updateClicksPython db i n else db
          let ret := if applied && visible then db2.filter (fun x => x.id == i) else []
          if ret.isEmpty then
            match selectSingle db2 i with
            | some v => if v.clicks_python == some n then ⟨200, true, db2⟩ else ⟨403, false, db2⟩
            | none => ⟨403, false, db2⟩
          else ⟨200, true, db2⟩
      else ⟨400, false, db⟩

/-- Substring test on character lists: does `pat` occur contiguously in
the remaining hay? This is the semantics of the JavaScript
`String.prototype.includes`. -/
def strHasSubAux (pat : List Char) : List Char → Bool
  | [] => pat.isEmpty
  | c :: rest => pat.isPrefixOf (c :: rest) || strHasSubAux pat rest

/-- `hay.includes(pat)` for strings. -/
def strHasSub (hay pat : String) : Bool :=
  strHasSubAux pat.data hay.data

/-- The tag clause of the search filter in src/src/app/HomeClient.tsx:
`Array.isArray(tags) && tags.some(tag => tag.toLowerCase().includes(term))`;
a null tags column contributes false. -/
def tagsMatch (term : String) : Option (List String) → Bool
  | some ts => ts.any (fun tg => strHasSub (jsToLower tg) term)
  | none => false

/-- The search filter predicate of HomeClient.tsx: the (already
lower-cased) term occurs in the lower-cased name, description or some
tag. -/
def ciMatches (term : String) (s : Stream) : Bool :=
  strHasSub (jsToLower s.name) term || strHasSub (jsToLower s.description) term ||
    tagsMatch term s.tags

/-- The `search` callback of src/src/app/HomeClient.tsx over an abstract
store read `fetch` (argument: the row limit of the select). Empty or
whitespace-only query: select with limit 6, results are the returned
rows (`data || []` makes a store error yield the empty list). Non-empty
query: select with limit 50, on error the empty list, otherwise filter
by `ciMatches` on the trimmed lower-cased term and keep the first 6
matches in candidate order. -/
def searchImpl (fetch : Nat → Except String (List Stream)) (q : String) : List Stream :=
  if jsTrim q == "" then
    match fetch 6 with
    | .ok rows => rows
    | .error _ => []
  else
    match fetch 50 with
    | .error _ => []
    | .ok rows =>
      if rows.isEmpty then []
      else (rows.filter (ciMatches (jsToLower (jsTrim q)))).take 6

/-- The healthy store: a select with limit n returns the first n catalog
rows in store order. -/
def catalogFetch (db : List Stream) : Nat → Except String (List Stream) :=
  fun n => .ok (db.take n)

/-- Search against a healthy store holding catalog `db`. -/
def search (db : List Stream) (q : String) : List Stream :=
  searchImpl (catalogFetch db) q

/-- An authenticated principal as resolved from a bearer token. -/
structure AuthUser where
  uid : String
  email : Option String
deriving DecidableEq

/-- A row of the accounts store (auth.users). -/
structure AccountRec where
  uid : String
  email : Option String
  created_at : String
deriving DecidableEq

/-- An account row as rendered by the admin users route. -/
structure AccountOut where
  uid : String
  email : String
  created_at : String
deriving DecidableEq

/-- The fixed admin allow-list, from src/unnamed/part_000. -/
def ALLOWED_ADMIN_EMAILS : List String :=
  ["joseph@cryptotap.io", "admin@dataplug.dev", "joseph@dataplug.dev"]

/-- Responses of GET /api/admin/users. -/
inductive AdminUsersResp where
  | unauthorized
  | forbidden
  | configError
  | storeError (msg : String)
  | ok (users : List AccountOut)
deriving DecidableEq

/-- The environment of the admin users route: token resolution (none
models both an auth error and a null user), the optional service role
key, and the outcome of the elevated accounts listing. -/
structure AdminEnv where
  getUser : String → Option AuthUser
  serviceRoleKey : Option String
  listUsers : Except String (List AccountRec)

/-- Token extraction `authHeader.replace(Bearer-space, empty)`. Lean's
String.replace replaces every occurrence where the JavaScript method
replaces only the first; for a well-formed header both strip the scheme
prefix. -/
def bearerToken (h : String) : String :=
  h.replace "Bearer " ""

/-- GET of src/unnamed/part_000 (/api/admin/users): 401 without a
(truthy) authorization header; 403 when the token does not resolve, the
user has no email, or the email is not a case-sensitive member of the
allow-list; 500 when the service role key is absent or the elevated
listing errors; otherwise the account rows with a default email
placeholder. -/
def adminUsersGET (env : AdminEnv) (authHeader : Option String) : AdminUsersResp :=
  if !(jsTruthy authHeader) then .unauthorized
  else
    match env.getUser (bearerToken (authHeader.getD "")) with
    | none => .forbidden
    | some u =>
      match u.email with
      | none => .forbidden
      | some e =>
        if ALLOWED_ADMIN_EMAILS.contains e then
          match env.serviceRoleKey with
          | none => .configError
          | some _ =>
            match env.listUsers with
            | .error msg => .storeError msg
            | .ok us => .ok (us.map (fun a => ⟨a.uid, a.email.getD "No email", a.created_at⟩))
        else .forbidden

/-- The account data carried by an admin users response: only the ok
branch carries any. -/
def respUsers : AdminUsersResp → Option (List AccountOut)
  | .ok us => some us
  | _ => none

/-- Behaviour of the probed endpoint, abstracting wall-clock time: the
target answers its first byte at `t` milliseconds with HTTP ok flag
`ok`, or the transport fails at `t` milliseconds, or nothing ever
arrives. -/
inductive FetchOutcome where
  | responds (ok : Bool) (t : Nat)
  | fails (t : Nat)
  | neverResponds
deriving DecidableEq

/-- Response of GET /api/ping. -/
structure PingResp where
  status : Nat
  latency : Option Nat
  error : Option String
deriving DecidableEq

/-- The abort timer bound of the ping route. -/
def PING_TIMEOUT_MS : Nat := 3000

/-- GET of the ping route (second document of src/unnamed/part_002):
400 without a truthy endpoint; otherwise a HEAD fetch raced against a
3000 ms abort timer. The inline catch turns every rejection, the abort
included, into a null response, so the route answers 200 with the
elapsed time and an error marker whenever the response is missing or
not ok. With the timers idealised, an endpoint that never responds (or
responds only at or after the bound) is aborted exactly at the bound,
so the measured latency is the bound itself; a transport failure before
the bound yields its own elapsed time. The AbortError branch of the
outer catch is unreachable because of the inline catch. -/
def pingGET (endpoint : Option String) (outcome : FetchOutcome) : PingResp :=
  if !(jsTruthy endpoint) then ⟨400, none, some "Endpoint required"⟩
  else
    match outcome with
    | .responds ok t =>
      if t < PING_TIMEOUT_MS then
        if ok then ⟨200, some t, none⟩
        else ⟨200, some t, some "Request failed"⟩
      else ⟨200, some PING_TIMEOUT_MS, some "Request failed"⟩
    | .fails t => ⟨200, some (min t PING_TIMEOUT_MS), some "Request failed"⟩
    | .neverResponds => ⟨200, some PING_TIMEOUT_MS, some "Request failed"⟩

/-- A per-stream statistics row of the admin dashboard. -/
structure StreamStats where
  id : String
  name : String
  clicks_node : Nat
  clicks_python : Nat
  total : Nat
deriving DecidableEq

/-- The mapping step of fetchStreams in src/src/app/admin/page.tsx:
null counters count as 0 and total is their sum. -/
def toStats (s : Stream) : StreamStats :=
  { id := s.id
    name := s.name
    clicks_node := s.clicks_node.getD 0
    clicks_python := s.clicks_python.getD 0
    total := s.clicks_node.getD 0 + s.clicks_python.getD 0 }

/-- fetchStreams of src/src/app/admin/page.tsx: map the catalog rows to
statistics rows and sort by total descending. The JavaScript
`sort((a, b) => b.total - a.total)` is a stable descending sort by
total, modelled by a stable insertion sort under the relation
`b.total ≤ a.total`. The input list is taken in the order the store
returns it. -/
def listStreamStats (db : List Stream) : List StreamStats :=
  List.insertionSort (fun a b => b.total ≤ a.total) (db.map toStats)

/-- Request body of POST /api/add-stream. -/
structure AddStreamReq where
  name : Option String
  endpoint : Option String
  description : Option String
  tags : Option String

/-- The row handed to the store insert by the add-stream route (id and
created_at are assigned by the store). -/
structure InsertRow where
  name : String
  endpoint : String
  description : String
  tags : Option (List String)
  clicks_node : Nat
  clicks_python : Nat
deriving DecidableEq

/-- Tag processing of src/src/app/api/add-stream/route.ts: a falsy tags
field gives no tags, otherwise split on commas, trim each piece and drop
the empty ones. -/
def parseTags (tags : Option String) : List String :=
  if jsTruthy tags then
    ((jsSplitComma (tags.getD "")).map (fun t => jsTrim t)).filter (fun t => t.length > 0)
  else []

/-- POST of src/src/app/api/add-stream/route.ts up to the store insert:
none when the required fields fail the truthiness validation (a 400),
otherwise the row to insert, with trimmed name, endpoint and
description, the processed tags (null when no non-empty segment
remains), and both counters initialized to 0. -/
def addStreamPayload (r : AddStreamReq) : Option InsertRow :=
  if !(jsTruthy r.name && jsTruthy r.endpoint && jsTruthy r.description) then none
  else some
    { name := jsTrim (r.name.getD "")
      endpoint := jsTrim (r.endpoint.getD "")
      description := jsTrim (r.description.getD "")
      tags := if (parseTags r.tags).length > 0 then some (parseTags r.tags) else none
      clicks_node := 0
      clicks_python := 0 }

/-- The descending-by-total comparison is total. -/
instance : IsTotal StreamStats (fun a b => b.total ≤ a.total) :=
  ⟨fun a b => Nat.le_total b.total a.total⟩

/-- The descending-by-total comparison is transitive. -/
instance : IsTrans StreamStats (fun a b => b.total ≤ a.total) :=
  ⟨fun _ _ _ hab hbc => le_trans hbc hab⟩

/-
Helper lemmas about the store primitives.
-/

theorem selectSingle_eq_some_iff (db : List Stream) (i : String) (s : Stream) :
    selectSingle db i = some s ↔ db.filter (fun x => x.id == i) = [s] := by
  unfold selectSingle
  rcases h : db.filter (fun x => x.id == i) with _ | ⟨x, _ | ⟨y, l⟩⟩ <;> rw [h] <;> simp

theorem eq_of_selectSingle_of_mem {db : List Stream} {i : String} {s a : Stream}
    (h : selectSingle db i = some s) (ha : a ∈ db) (hai : (a.id == i) = true) : a = s := by
  have hf := (selectSingle_eq_some_iff db i s).mp h
  have hm : a ∈ db.filter (fun x => x.id == i) := List.mem_filter.mpr ⟨ha, hai⟩
  rw [hf] at hm
  simpa using hm

theorem filter_updateClicksNode (db : List Stream) (i : String) (n : Nat) :
    (updateClicksNode db i n).filter (fun x => x.id == i)
      = (db.filter (fun x => x.id == i)).map (fun s => { s with clicks_node := some n }) := by
  induction db with
  | nil => rfl
  | cons a l ih =>
    unfold updateClicksNode at ih ⊢
    by_cases hai : (a.id == i) = true
    · have hai2 : (({ a with clicks_node := some n } : Stream).id == i) = true := hai
      rw [List.map_cons, if_pos hai, List.filter_cons, if_pos hai2,
        List.filter_cons, if_pos hai, List.map_cons, ih]
    · rw [List.map_cons, if_neg hai, List.filter_cons, if_neg hai,
        List.filter_cons, if_neg hai, ih]

theorem filter_updateClicksPython (db : List Stream) (i : String) (n : Nat) :
    (updateClicksPython db i n).filter (fun x => x.id == i)
      = (db.filter (fun x => x.id == i)).map (fun s => { s with clicks_python := some n }) := by
  induction db with
  | nil => rfl
  | cons a l ih =>
    unfold updateClicksPython at ih ⊢
    by_cases hai : (a.id == i) = true
    · have hai2 : (({ a with clicks_python := some n } : Stream).id == i) = true := hai
      rw [List.map_cons, if_pos hai, List.filter_cons, if_pos hai2,
        List.filter_cons, if_pos hai, List.map_cons, ih]
    · rw [List.map_cons, if_neg hai, List.filter_cons, if_neg hai,
        List.filter_cons, if_neg hai, ih]

theorem selectSingle_updateClicksNode {db : List Stream} {i : String} {s : Stream} (n : Nat)
    (h : selectSingle db i = some s) :
    selectSingle (updateClicksNode db i n) i = some { s with clicks_node := some n } := by
  have hf := (selectSingle_eq_some_iff db i s).mp h
  apply (selectSingle_eq_some_iff _ _ _).mpr
  rw [filter_updateClicksNode, hf]
  rfl

theorem selectSingle_updateClicksPython {db : List Stream} {i : String} {s : Stream} (n : Nat)
    (h : selectSingle db i = some s) :
    selectSingle (updateClicksPython db i n) i = some { s with clicks_python := some n } := by
  have hf := (selectSingle_eq_some_iff db i s).mp h
  apply (selectSingle_eq_some_iff _ _ _).mpr
  rw [filter_updateClicksPython, hf]
  rfl

theorem clickPOST_node_run {db : List Stream} {i : String} {s : Stream}
    (hi : i ≠ "") (h : selectSingle db i = some s) :
    clickPOST db (some i) (some "node")
      = ⟨200, true, updateClicksNode db i (s.clicks_node.getD 0 + 1)⟩ := by
  have hb : (i == "") = false := beq_eq_false_iff_ne.mpr hi
  unfold clickPOST
  simp [jsTruthy, hb, h]

theorem clickPOST_python_run {db : List Stream} {i : String} {s : Stream}
    (hi : i ≠ "") (h : selectSingle db i = some s) :
    clickPOST db (some i) (some "python")
      = ⟨200, true, updateClicksPython db i (s.clicks_python.getD 0 + 1)⟩ := by
  have hb : (i == "") = false := beq_eq_false_iff_ne.mpr hi
  unfold clickPOST
  simp [jsTruthy, hb, h]

/-- C1: for every stream record present in the store, a successful call
to the click route with type node sets clicks_node to the fetched value
plus 1 (fetch current, compute current + 1, update with an equality
filter on id) and leaves clicks_python unchanged; symmetrically for
type python. The updated record as re-fetched by id is exactly the
fetched record with only the one counter replaced. -/
theorem C1_click_increment (db : List Stream) (i : String) (s : Stream)
    (hi : i ≠ "") (h : selectSingle db i = some s) :
    (clickPOST db (some i) (some "node")).status = 200 ∧
    selectSingle (clickPOST db (some i) (some "node")).db i
      = some { s with clicks_node := some (s.clicks_node.getD 0 + 1) } ∧
    (clickPOST db (some i) (some "python")).status = 200 ∧
    selectSingle (clickPOST db (some i) (some "python")).db i
      = some { s with clicks_python := some (s.clicks_python.getD 0 + 1) } := by
  rw [clickPOST_node_run hi h, clickPOST_python_run hi h]
  exact ⟨rfl, selectSingle_updateClicksNode _ h, rfl, selectSingle_updateClicksPython _ h⟩

/-- Witness for C1: a concrete one-record store; the node increment
takes clicks_node from 5 to 6 and keeps clicks_python at 2. -/
theorem C1_click_increment_witness :
    (clickPOST [⟨"1", "n", "d", "e", none, some 5, some 2, "c"⟩] (some "1") (some "node")).status
      = 200 ∧
    selectSingle
        (clickPOST [⟨"1", "n", "d", "e", none, some 5, some 2, "c"⟩] (some "1") (some "node")).db
        "1"
      = some ⟨"1", "n", "d", "e", none, some 6, some 2, "c"⟩ := by
  have hw := C1_click_increment [⟨"1", "n", "d", "e", none, some 5, some 2, "c"⟩] "1"
    ⟨"1", "n", "d", "e", none, some 5, some 2, "c"⟩ (by decide) (by decide)
  exact ⟨hw.1, hw.2.1⟩

theorem forall₂_counters_refl (db : List Stream) :
    List.Forall₂
      (fun a b => a.clicks_node.getD 0 ≤ b.clicks_node.getD 0 ∧
        a.clicks_python.getD 0 ≤ b.clicks_python.getD 0) db db :=
  List.forall₂_same.mpr (fun _ _ => ⟨le_refl _, le_refl _⟩)

theorem forall₂_updateClicksNode {db : List Stream} {i : String} {s : Stream}
    (h : selectSingle db i = some s) (n : Nat) (hn : s.clicks_node.getD 0 ≤ n) :
    List.Forall₂
      (fun a b => a.clicks_node.getD 0 ≤ b.clicks_node.getD 0 ∧
        a.clicks_python.getD 0 ≤ b.clicks_python.getD 0)
      db (updateClicksNode db i n) := by
  unfold updateClicksNode
  rw [List.forall₂_map_right_iff]
  apply List.forall₂_same.mpr
  intro a ha
  by_cases hai : (a.id == i) = true
  · have has : a = s := eq_of_selectSingle_of_mem h ha hai
    subst has
    rw [if_pos hai]
    exact ⟨hn, le_refl _⟩
  · rw [if_neg hai]
    exact ⟨le_refl _, le_refl _⟩

theorem forall₂_updateClicksPython {db : List Stream} {i : String} {s : Stream}
    (h : selectSingle db i = some s) (n : Nat) (hn : s.clicks_python.getD 0 ≤ n) :
    List.Forall₂
      (fun a b => a.clicks_node.getD 0 ≤ b.clicks_node.getD 0 ∧
        a.clicks_python.getD 0 ≤ b.clicks_python.getD 0)
      db (updateClicksPython db i n) := by
  unfold updateClicksPython
  rw [List.forall₂_map_right_iff]
  apply List.forall₂_same.mpr
  intro a ha
  by_cases hai : (a.id == i) = true
  · have has : a = s := eq_of_selectSingle_of_mem h ha hai
    subst has
    rw [if_pos hai]
    exact ⟨le_refl _, hn⟩
  · rw [if_neg hai]
    exact ⟨le_refl _, le_refl _⟩

/-- C7: counters only move up. Whatever the request, the click route
keeps the store rows aligned one-to-one with the old rows and never
decreases either counter of any row (the only write is the fetched
value plus one), and a validated add-stream request always initializes
both counters of the inserted row to 0. -/
theorem C7_counters_monotone (db : List Stream) (idv tyv : Option String) :
    List.Forall₂
      (fun a b => a.clicks_node.getD 0 ≤ b.clicks_node.getD 0 ∧
        a.clicks_python.getD 0 ≤ b.clicks_python.getD 0)
      db (clickPOST db idv tyv).db ∧
    (∀ r row, addStreamPayload r = some row → row.clicks_node = 0 ∧ row.clicks_python = 0) := by
  constructor
  · unfold clickPOST
    split
    · exact forall₂_counters_refl db
    · rcases hsel : selectSingle db (idv.getD "") with _ | s
      · simp only [hsel]
        exact forall₂_counters_refl db
      · simp only [hsel]
        split
        · exact forall₂_updateClicksNode hsel _ (Nat.le_succ _)
        · split
          · exact forall₂_updateClicksPython hsel _ (Nat.le_succ _)
          · exact forall₂_counters_refl db
  · intro r row hrow
    unfold addStreamPayload at hrow
    split at hrow
    · exact absurd hrow (by simp)
    · injection hrow with hr
      subst hr
      exact ⟨rfl, rfl⟩

theorem clicks_ne_next (o : Option Nat) : (o == some (o.getD 0 + 1)) = false := by
  rw [beq_eq_false_iff_ne]
  cases o with
  | none => intro hc; exact Option.noConfusion hc
  | some m =>
    intro hc
    injection hc with hm
    simp only [Option.getD_some] at hm
    omega

theorem clicks_ne_next_prop (o : Option Nat) : o ≠ some (o.getD 0 + 1) :=
  beq_eq_false_iff_ne.mp (clicks_ne_next o)

theorem clickPOST2_node_run {db : List Stream} {i : String} {s : Stream}
    (hi : i ≠ "") (h : selectSingle db i = some s) (applied visible : Bool) :
    clickPOST2 db (some i) (some "node") none applied visible
      = if applied
        then ⟨200, true, updateClicksNode db i (s.clicks_node.getD 0 + 1)⟩
        else ⟨403, false, db⟩ := by
  have hb : (i == "") = false := beq_eq_false_iff_ne.mpr hi
  have hf := (selectSingle_eq_some_iff db i s).mp h
  cases applied with
  | true =>
    cases visible with
    | true =>
      have hfu := filter_updateClicksNode db i (s.clicks_node.getD 0 + 1)
      rw [hf] at hfu
      unfold clickPOST2
      simp [jsTruthy, hb, h, hfu]
    | false =>
      have hsu := selectSingle_updateClicksNode (s.clicks_node.getD 0 + 1) h
      unfold clickPOST2
      simp [jsTruthy, hb, h, hsu]
  | false =>
    unfold clickPOST2
    simp [jsTruthy, hb, h, clicks_ne_next]

theorem clickPOST2_python_run {db : List Stream} {i : String} {s : Stream}
    (hi : i ≠ "") (h : selectSingle db i = some s) (applied visible : Bool) :
    clickPOST2 db (some i) (some "python") none applied visible
      = if applied
        then ⟨200, true, updateClicksPython db i (s.clicks_python.getD 0 + 1)⟩
        else ⟨403, false, db⟩ := by
  have hb : (i == "") = false := beq_eq_false_iff_ne.mpr hi
  have hf := (selectSingle_eq_some_iff db i s).mp h
  cases applied with
  | true =>
    cases visible with
    | true =>
      have hfu := filter_updateClicksPython db i (s.clicks_python.getD 0 + 1)
      rw [hf] at hfu
      unfold clickPOST2
      simp [jsTruthy, hb, h, hfu]
    | false =>
      have hsu := selectSingle_updateClicksPython (s.clicks_python.getD 0 + 1) h
      unfold clickPOST2
      simp [jsTruthy, hb, h, hsu]
  | false =>
    unfold clickPOST2
    simp [jsTruthy, hb, h, clicks_ne_next]

theorem clickPOST2_err_run {db : List Stream} {i : String} {s : Stream}
    (hi : i ≠ "") (h : selectSingle db i = some s) (e : String) (applied visible : Bool) :
    clickPOST2 db (some i) (some "node") (some e) applied visible = ⟨500, false, db⟩ ∧
    clickPOST2 db (some i) (some "python") (some e) applied visible = ⟨500, false, db⟩ := by
  have hb : (i == "") = false := beq_eq_false_iff_ne.mpr hi
  constructor <;> (unfold clickPOST2; simp [jsTruthy, hb, h])

/-- C5: in the hardened click route, an erroring update is a 500; when
the update call succeeds but its return set is empty, the route
re-reads the counter and succeeds exactly when either the update did
return rows or the observed value equals the expected fetched value
plus one, with a value mismatch reported as the distinct 403. Under the
fetched record the return set is nonempty exactly when the store both
applied the update and let the row be visible, so the success
characterization is stated through those two store flags. -/
theorem C5_rls_verify (db : List Stream) (i : String) (s : Stream)
    (applied visible : Bool) (hi : i ≠ "") (h : selectSingle db i = some s) :
    (∀ e, (clickPOST2 db (some i) (some "node") (some e) applied visible).status = 500) ∧
    ((clickPOST2 db (some i) (some "node") none applied visible).status = 200 ∨
      (clickPOST2 db (some i) (some "node") none applied visible).status = 403) ∧
    ((clickPOST2 db (some i) (some "node") none applied visible).status = 200 ↔
      ((applied && visible) = true ∨
        ∃ v, selectSingle
            (if applied then updateClicksNode db i (s.clicks_node.getD 0 + 1) else db) i
            = some v ∧ v.clicks_node = some (s.clicks_node.getD 0 + 1))) ∧
    (∀ e, (clickPOST2 db (some i) (some "python") (some e) applied visible).status = 500) ∧
    ((clickPOST2 db (some i) (some "python") none applied visible).status = 200 ∨
      (clickPOST2 db (some i) (some "python") none applied visible).status = 403) ∧
    ((clickPOST2 db (some i) (some "python") none applied visible).status = 200 ↔
      ((applied && visible) = true ∨
        ∃ v, selectSingle
            (if applied then updateClicksPython db i (s.clicks_python.getD 0 + 1) else db) i
            = some v ∧ v.clicks_python = some (s.clicks_python.getD 0 + 1))) := by
  have hrn := clickPOST2_node_run hi h applied visible
  have hrp := clickPOST2_python_run hi h applied visible
  refine ⟨fun e => by rw [(clickPOST2_err_run hi h e applied visible).1],
    ?_, ?_, fun e => by rw [(clickPOST2_err_run hi h e applied visible).2], ?_, ?_⟩
  · cases applied <;> simp [hrn]
  · cases applied with
    | true =>
      refine iff_of_true ?_ ?_
      · rw [hrn]; simp
      · exact Or.inr ⟨{ s with clicks_node := some (s.clicks_node.getD 0 + 1) },
          by rw [if_pos rfl]; exact selectSingle_updateClicksNode _ h, rfl⟩
    | false =>
      refine iff_of_false ?_ ?_
      · rw [hrn]; simp
      · rintro (hav | ⟨v, hv, hvn⟩)
        · simp at hav
        · rw [if_neg (by simp)] at hv
          rw [h] at hv
          injection hv with hv2
          subst hv2
          exact absurd hvn (clicks_ne_next_prop _)
  · cases applied <;> simp [hrp]
  · cases applied with
    | true =>
      refine iff_of_true ?_ ?_
      · rw [hrp]; simp
      · exact Or.inr ⟨{ s with clicks_python := some (s.clicks_python.getD 0 + 1) },
          by rw [if_pos rfl]; exact selectSingle_updateClicksPython _ h, rfl⟩
    | false =>
      refine iff_of_false ?_ ?_
      · rw [hrp]; simp
      · rintro (hav | ⟨v, hv, hvn⟩)
        · simp at hav
        · rw [if_neg (by simp)] at hv
          rw [h] at hv
          injection hv with hv2
          subst hv2
          exact absurd hvn (clicks_ne_next_prop _)

/-- Witness for C5: a one-record store with the update silently not
applied and not returned; both counter types answer 403, and with an
update error both answer 500. -/
theorem C5_rls_verify_witness :
    (clickPOST2 [⟨"1", "n", "d", "e", none, some 5, some 2, "c"⟩]
        (some "1") (some "node") (some "boom") false false).status = 500 ∧
    ((clickPOST2 [⟨"1", "n", "d", "e", none, some 5, some 2, "c"⟩]
        (some "1") (some "node") none false false).status = 200 ∨
      (clickPOST2 [⟨"1", "n", "d", "e", none, some 5, some 2, "c"⟩]
        (some "1") (some "node") none false false).status = 403) := by
  have hw := C5_rls_verify [⟨"1", "n", "d", "e", none, some 5, some 2, "c"⟩] "1"
    ⟨"1", "n", "d", "e", none, some 5, some 2, "c"⟩ false false (by decide) (by decide)
  exact ⟨hw.1 "boom", hw.2.1⟩

/-- C8: with an empty or whitespace-only term, search returns the first
6 catalog rows in store order: a prefix of the catalog of length
min(6, catalog size). -/
theorem C8_search_empty_take (db : List Stream) (q : String) (h : jsTrim q = "") :
    search db q = db.take 6 ∧
    (search db q).length = min 6 db.length ∧
    search db q ++ db.drop 6 = db := by
  have h1 : search db q = db.take 6 := by
    unfold search searchImpl catalogFetch
    simp [h]
  refine ⟨h1, ?_, ?_⟩
  · rw [h1]
    exact List.length_take 6 db
  · rw [h1]
    exact List.take_append_drop 6 db

/-- Witness for C8: a whitespace-only term over a two-record catalog
gives back the whole catalog. -/
theorem C8_search_empty_take_witness :
    search [⟨"1", "a", "d", "e", none, none, none, "c"⟩,
            ⟨"2", "b", "d", "e", none, none, none, "c"⟩] "  "
      = [⟨"1", "a", "d", "e", none, none, none, "c"⟩,
         ⟨"2", "b", "d", "e", none, none, none, "c"⟩] := by
  have hw := C8_search_empty_take
    [⟨"1", "a", "d", "e", none, none, none, "c"⟩,
     ⟨"2", "b", "d", "e", none, none, none, "c"⟩] "  " (by decide)
  rw [hw.1]
  rfl

/-- C2: with a non-empty term, against any candidate list the store
returns, every result matches the trimmed term case-insensitively in
its name, its description or some tag; at most 6 results; and the
result is exactly the first 6 matches of the candidate list in
candidate order. -/
theorem C2_search_matches (fetch : Nat → Except String (List Stream))
    (rows : List Stream) (q : String)
    (hq : jsTrim q ≠ "") (hf : fetch 50 = .ok rows) :
    (∀ s ∈ searchImpl fetch q,
        strHasSub (jsToLower s.name) (jsToLower (jsTrim q)) = true ∨
        strHasSub (jsToLower s.description) (jsToLower (jsTrim q)) = true ∨
        ∃ ts, s.tags = some ts ∧
          ∃ tg ∈ ts, strHasSub (jsToLower tg) (jsToLower (jsTrim q)) = true) ∧
    (searchImpl fetch q).length ≤ 6 ∧
    searchImpl fetch q = (rows.filter (ciMatches (jsToLower (jsTrim q)))).take 6 := by
  have hqb : (jsTrim q == "") = false := beq_eq_false_iff_ne.mpr hq
  have heq : searchImpl fetch q = (rows.filter (ciMatches (jsToLower (jsTrim q)))).take 6 := by
    unfold searchImpl
    rw [hqb]
    simp only [Bool.false_eq_true, if_false, hf]
    by_cases hr : rows.isEmpty
    · rw [if_pos hr]
      have hnil : rows = [] := List.isEmpty_iff.mp hr
      subst hnil
      rfl
    · rw [if_neg hr]
  refine ⟨?_, ?_, heq⟩
  · intro s hs
    rw [heq] at hs
    have hs2 : s ∈ rows.filter (ciMatches (jsToLower (jsTrim q))) := List.take_subset _ _ hs
    have hm : ciMatches (jsToLower (jsTrim q)) s = true := List.of_mem_filter hs2
    simp only [ciMatches, Bool.or_eq_true] at hm
    rcases hm with (hA | hB) | hc
    · exact Or.inl hA
    · exact Or.inr (Or.inl hB)
    · right; right
      cases ht : s.tags with
      | none =>
        rw [ht] at hc
        exact absurd hc (by simp [tagsMatch])
      | some ts =>
        rw [ht] at hc
        unfold tagsMatch at hc
        obtain ⟨tg, htg, hsub⟩ := List.any_eq_true.mp hc
        exact ⟨ts, rfl, tg, htg, hsub⟩
  · rw [heq]
    exact List.length_take_le 6 _

/-- Witness for C2: searching a two-candidate list for sol keeps only
the record whose name contains it case-insensitively. -/
theorem C2_search_matches_witness :
    searchImpl
        (fun _ => Except.ok
          [⟨"1", "Solana Mempool", "d", "e", none, none, none, "c"⟩,
           ⟨"2", "ETH Gas", "d", "e", none, none, none, "c"⟩]) "sol"
      = ([⟨"1", "Solana Mempool", "d", "e", none, none, none, "c"⟩,
          ⟨"2", "ETH Gas", "d", "e", none, none, none, "c"⟩].filter
            (ciMatches (jsToLower (jsTrim "sol")))).take 6 ∧
    (searchImpl
        (fun _ => Except.ok
          [⟨"1", "Solana Mempool", "d", "e", none, none, none, "c"⟩,
           ⟨"2", "ETH Gas", "d", "e", none, none, none, "c"⟩]) "sol").length ≤ 6 := by
  have hw := C2_search_matches
    (fun _ => Except.ok
      [⟨"1", "Solana Mempool", "d", "e", none, none, none, "c"⟩,
       ⟨"2", "ETH Gas", "d", "e", none, none, none, "c"⟩])
    [⟨"1", "Solana Mempool", "d", "e", none, none, none, "c"⟩,
     ⟨"2", "ETH Gas", "d", "e", none, none, none, "c"⟩] "sol" (by decide) rfl
  exact ⟨hw.2.2, hw.2.1⟩

/-- C9: when every store read errors, search returns the empty list in
both query branches; as a total Lean function it cannot raise. -/
theorem C9_search_store_error (fetch : Nat → Except String (List Stream)) (q : String)
    (h : ∀ n, ∃ e, fetch n = .error e) :
    searchImpl fetch q = [] := by
  obtain ⟨e6, he6⟩ := h 6
  obtain ⟨e50, he50⟩ := h 50
  unfold searchImpl
  rw [he6, he50]
  split <;> rfl

/-- Witness for C9: a store that always errors yields no results. -/
theorem C9_search_store_error_witness :
    searchImpl (fun _ => Except.error "store down") "solana" = [] :=
  C9_search_store_error (fun _ => Except.error "store down") "solana"
    (fun _ => ⟨"store down", rfl⟩)

/-- C3: any caller whose resolved email is not a case-sensitive exact
member of the fixed admin allow-list, including callers without a
truthy authorization header and callers whose token fails to resolve or
carries no email, receives Unauthorized or Forbidden, and the response
carries no account data. -/
theorem C3_admin_gate (env : AdminEnv) (hdr : Option String)
    (h : ∀ hs, hdr = some hs → ∀ u, env.getUser (bearerToken hs) = some u →
      ∀ e, u.email = some e → ALLOWED_ADMIN_EMAILS.contains e = false) :
    (adminUsersGET env hdr = .unauthorized ∨ adminUsersGET env hdr = .forbidden) ∧
    respUsers (adminUsersGET env hdr) = none := by
  cases hdr with
  | none => simp [adminUsersGET, jsTruthy, respUsers]
  | some hs =>
    by_cases hne : hs = ""
    · subst hne
      simp [adminUsersGET, jsTruthy, respUsers]
    · have hb : (hs == "") = false := beq_eq_false_iff_ne.mpr hne
      cases hu : env.getUser (bearerToken hs) with
      | none => simp [adminUsersGET, jsTruthy, hb, hu, respUsers]
      | some u =>
        cases he : u.email with
        | none => simp [adminUsersGET, jsTruthy, hb, hu, he, respUsers]
        | some e =>
          have hc : ALLOWED_ADMIN_EMAILS.contains e = false := h hs rfl u hu e he
          have hc2 : e ∉ ALLOWED_ADMIN_EMAILS := by simpa using hc
          simp [adminUsersGET, jsTruthy, hb, hu, he, hc2, respUsers]

/-- Witness for C3: a resolvable token whose email is not on the
allow-list is forbidden and gets no account rows, even though the
accounts store holds one. -/
theorem C3_admin_gate_witness :
    (adminUsersGET
        ⟨fun _ => some ⟨"u1", some "mallory@example.com"⟩, some "srk",
          Except.ok [⟨"u9", some "x@y.z", "2024"⟩]⟩ (some "Bearer tok") = .unauthorized ∨
      adminUsersGET
        ⟨fun _ => some ⟨"u1", some "mallory@example.com"⟩, some "srk",
          Except.ok [⟨"u9", some "x@y.z", "2024"⟩]⟩ (some "Bearer tok") = .forbidden) ∧
    respUsers
        (adminUsersGET
          ⟨fun _ => some ⟨"u1", some "mallory@example.com"⟩, some "srk",
            Except.ok [⟨"u9", some "x@y.z", "2024"⟩]⟩ (some "Bearer tok")) = none := by
  apply C3_admin_gate
  intro hs hhs u hu e he
  injection hhs with h1
  subst h1
  injection hu with h2
  subst h2
  injection he with h3
  subst h3
  decide

/-- C4: probing a truthy endpoint that never responds within the bound
yields the structured 200 response with the error field set and latency
equal to the 3000 ms timeout bound (never null); the same holds for a
response that would only arrive at or after the bound. -/
theorem C4_ping_timeout (ep : String) (hep : ep ≠ "") :
    pingGET (some ep) .neverResponds
      = ⟨200, some PING_TIMEOUT_MS, some "Request failed"⟩ ∧
    (pingGET (some ep) .neverResponds).latency = some PING_TIMEOUT_MS ∧
    (pingGET (some ep) .neverResponds).latency ≠ none ∧
    (pingGET (some ep) .neverResponds).error ≠ none ∧
    (∀ ok t, PING_TIMEOUT_MS ≤ t →
      pingGET (some ep) (.responds ok t)
        = ⟨200, some PING_TIMEOUT_MS, some "Request failed"⟩) := by
  have hb : (ep == "") = false := beq_eq_false_iff_ne.mpr hep
  have hnever : pingGET (some ep) .neverResponds
      = ⟨200, some PING_TIMEOUT_MS, some "Request failed"⟩ := by
    unfold pingGET
    simp [jsTruthy, hb]
  refine ⟨hnever, by rw [hnever], by rw [hnever]; simp, by rw [hnever]; simp, ?_⟩
  intro ok t ht
  have ht2 : ¬ t < PING_TIMEOUT_MS := by
    unfold PING_TIMEOUT_MS at ht ⊢
    omega
  unfold pingGET
  simp only [jsTruthy, hb, Bool.not_false, if_true]
  rw [if_neg ht2]
  simp

/-- Witness for C4: a concrete endpoint that never answers reports the
3000 ms sentinel latency and an error. -/
theorem C4_ping_timeout_witness :
    pingGET (some "wss://dead.example") FetchOutcome.neverResponds
      = ⟨200, some PING_TIMEOUT_MS, some "Request failed"⟩ ∧
    pingGET (some "wss://dead.example") (FetchOutcome.responds true 5000)
      = ⟨200, some PING_TIMEOUT_MS, some "Request failed"⟩ := by
  have hw := C4_ping_timeout "wss://dead.example" (by decide)
  exact ⟨hw.1, hw.2.2.2.2 true 5000 (by decide)⟩

/-- C6: every statistics row carries total equal to clicks_node plus
clicks_python (absent counters counting as 0), and the output is the
input rows sorted by total in descending order (pairwise descending,
and a permutation of the mapped input). -/
theorem C6_stream_stats (db : List Stream) :
    (∀ r ∈ listStreamStats db, r.total = r.clicks_node + r.clicks_python) ∧
    List.Pairwise (fun a b => b.total ≤ a.total) (listStreamStats db) ∧
    (listStreamStats db).Perm (db.map toStats) := by
  unfold listStreamStats
  refine ⟨?_, ?_, ?_⟩
  · intro r hr
    have hr2 : r ∈ db.map toStats :=
      (List.perm_insertionSort (fun a b => b.total ≤ a.total) (db.map toStats)).mem_iff.mp hr
    obtain ⟨s, _, rfl⟩ := List.mem_map.mp hr2
    rfl
  · exact List.sorted_insertionSort (fun a b => b.total ≤ a.total) (db.map toStats)
  · exact List.perm_insertionSort (fun a b => b.total ≤ a.total) (db.map toStats)

/-- C10: a validated add-stream request stores the trimmed name,
endpoint and description; the stored tags are the comma-separated
segments of the tags string, each trimmed, with empty segments dropped,
and null when no non-empty segment remains (in particular when the tags
string is absent). -/
theorem C10_add_stream_normalized (r : AddStreamReq) (row : InsertRow)
    (h : addStreamPayload r = some row) :
    row.name = jsTrim (r.name.getD "") ∧
    row.endpoint = jsTrim (r.endpoint.getD "") ∧
    row.description = jsTrim (r.description.getD "") ∧
    row.tags =
      (if ((jsSplitComma (r.tags.getD "")).map (fun t => jsTrim t)).filter
            (fun t => !(t == "")) = []
        then none
        else some (((jsSplitComma (r.tags.getD "")).map (fun t => jsTrim t)).filter
          (fun t => !(t == "")))) := by
  have hpred : ∀ t : String, (decide (t.length > 0)) = !(t == "") := by
    intro t
    by_cases ht : t = ""
    · subst ht
      rfl
    · have hb : (t == "") = false := beq_eq_false_iff_ne.mpr ht
      have hlen : 0 < t.length := by
        cases t with
        | mk cs =>
          cases cs with
          | nil => exact absurd rfl ht
          | cons c cs2 => simp [String.length]
      rw [hb]
      simpa using hlen
  have htags : parseTags r.tags
      = ((jsSplitComma (r.tags.getD "")).map (fun t => jsTrim t)).filter
          (fun t => !(t == "")) := by
    have hfe : ∀ l : List String,
        l.filter (fun t => decide (t.length > 0)) = l.filter (fun t => !(t == "")) := by
      intro l
      apply List.filter_congr
      intro t _
      exact hpred t
    cases r.tags with
    | none =>
      show parseTags none = _
      rw [← hfe]
      rfl
    | some t =>
      by_cases ht : t = ""
      · subst ht
        rw [← hfe]
        rfl
      · have hb : jsTruthy (some t) = true := by
          simp [jsTruthy, beq_eq_false_iff_ne.mpr ht]
        unfold parseTags
        rw [if_pos hb, hfe]

  unfold addStreamPayload at h
  split at h
  · exact absurd h (by simp)
  · injection h with hr
    subst hr
    refine ⟨rfl, rfl, rfl, ?_⟩
    show (if (parseTags r.tags).length > 0 then some (parseTags r.tags) else none) = _
    rw [htags]
    rcases hseg : ((jsSplitComma (r.tags.getD "")).map (fun t => jsTrim t)).filter
        (fun t => !(t == "")) with _ | ⟨a, l⟩
    · simp
    · simp

/-- Witness for C10: a request with padded fields and a ragged tag
string stores trimmed fields and exactly the two non-empty trimmed tag
segments. -/
theorem C10_add_stream_normalized_witness :
    addStreamPayload ⟨some " A ", some " ws://x ", some " d ", some " a, ,b ,"⟩
      = some ⟨"A", "ws://x", "d", some ["a", "b"], 0, 0⟩ ∧
    (⟨"A", "ws://x", "d", some ["a", "b"], 0, 0⟩ : InsertRow).name = jsTrim " A " := by
  refine ⟨by decide, ?_⟩
  exact (C10_add_stream_normalized ⟨some " A ", some " ws://x ", some " d ", some " a, ,b ,"⟩
    ⟨"A", "ws://x", "d", some ["a", "b"], 0, 0⟩ (by decide)).1

end DataPlug
